import Mathlib

/-!
Shallow embedding of the Donizo material scraper's data-processing core
(`utils/data_processor.py`, `utils/logger.py`, `api/server.py`, `scraper.py`)
together with theorems settling the specification claims about it.

Python strings are modelled as Lean `String`/`List Char`; Python dicts with a
fixed key set are modelled as structures whose absent keys are default values
(`""`, `[]`, `none`), matching `dict.get(key, default)`.  Machine-level hashing
(`hashlib.md5`) is embedded bit-faithfully over `Nat` with explicit reduction
modulo `2 ^ 32`.
-/

namespace Donizo

/-! ## Character-level helpers shared by the normalizers -/

/-- Python `str.lower()` restricted to the ASCII range, applied charwise. -/
def pyLower (l : List Char) : List Char := l.map Char.toLower

/-- The whitespace class of Python's `\s` (ASCII part). -/
def isPySpace (c : Char) : Bool :=
  c = ' ' || c = '\t' || c = '\n' || c = '\x0d' || c = '\x0b' || c = '\x0c'

/-- Python `str.strip()`: drop whitespace from both ends. -/
def pyStrip (l : List Char) : List Char :=
  ((l.dropWhile isPySpace).reverse.dropWhile isPySpace).reverse

/-- Python `str.title()` on ASCII: an alphabetic character is uppercased when
the previous character is not alphabetic and lowercased otherwise. -/
def pyTitleGo (prevAlpha : Bool) : List Char → List Char
  | [] => []
  | c :: cs =>
    (if c.isAlpha then (if prevAlpha then c.toLower else c.toUpper) else c)
      :: pyTitleGo c.isAlpha cs

def pyTitle (l : List Char) : List Char := pyTitleGo false l

/-- Python substring test `sub in text`. -/
def containsSub (text sub : List Char) : Bool := decide (sub <:+: text)

/-- Python `str.rfind`: index of the last occurrence, `-1` when absent. -/
def pyRfind : List Char → Char → Int
  | [], _ => -1
  | x :: xs, c =>
    let r := pyRfind xs c
    if 0 ≤ r then r + 1 else if x = c then 0 else -1

/-- Python `str.split(sep)` for a one-character separator: all fields,
including empty ones. -/
def splitOnChar (c : Char) : List Char → List (List Char)
  | [] => [[]]
  | x :: xs =>
    if x = c then [] :: splitOnChar c xs
    else
      match splitOnChar c xs with
      | [] => [[x]]
      | h :: t => (x :: h) :: t

/-- The segment of `l` strictly after the last occurrence of `c`
(all of `l` when `c` does not occur). -/
def afterLast (c : Char) : List Char → List Char
  | [] => []
  | x :: xs =>
    if c ∈ xs then afterLast c xs
    else if x = c then xs
    else x :: xs

/-! ## `DataProcessor.normalize_price` -/

structure PriceResult where
  price : String
  price_currency : String
deriving DecidableEq, Repr

/-- `re.sub(r'[^\d.,]', '', price)`: keep only digits, `.` and `,`. -/
def cleanPrice (price : String) : List Char :=
  price.toList.filter (fun c => c.isDigit || c = '.' || c = ',')

/-- The `Handle different decimal separators` block of `normalize_price`
(`utils/data_processor.py`, lines 39-52), applied to the cleaned text. -/
def disambiguateSeparators (clean : List Char) : List Char :=
  if ',' ∈ clean ∧ '.' ∈ clean then
    if pyRfind clean ',' > pyRfind clean '.' then
      (clean.filter (fun c => c ≠ '.')).map (fun c => if c = ',' then '.' else c)
    else
      clean.filter (fun c => c ≠ ',')
  else if ',' ∈ clean then
    let parts := splitOnChar ',' clean
    if parts.length = 2 ∧ (parts.getD 1 []).length ≤ 2 then
      clean.map (fun c => if c = ',' then '.' else c)
    else
      clean.filter (fun c => c ≠ ',')
  else clean

/-- `DataProcessor.normalize_price` (`utils/data_processor.py`, lines 31-57). -/
def normalize_price (price : String) (currency : String := "EUR") : PriceResult :=
  if price = "" then ⟨"", currency⟩
  else ⟨String.mk (disambiguateSeparators (cleanPrice price)), currency⟩

/-- Separator disambiguation as the (amended) specification words it: with both
separators present, the one occurring last is the decimal separator; with only
commas present, the comma is converted to a dot exactly when there is exactly
one comma with at most two characters after it, and stripped otherwise. -/
def sepDisambiguationSpec (clean : List Char) : List Char :=
  if ',' ∈ clean ∧ '.' ∈ clean then
    if '.' ∈ afterLast ',' clean then
      clean.filter (fun c => c ≠ ',')
    else
      (clean.filter (fun c => c ≠ '.')).map (fun c => if c = ',' then '.' else c)
  else if ',' ∈ clean then
    if clean.count ',' = 1 ∧ (afterLast ',' clean).length ≤ 2 then
      clean.map (fun c => if c = ',' then '.' else c)
    else
      clean.filter (fun c => c ≠ ',')
  else clean

/-! ## `DataProcessor.normalize_brand` -/

/-- Case-insensitive prefix test on character lists. -/
def isPrefixCI (pre l : List Char) : Bool :=
  List.isPrefixOf (pyLower pre) (pyLower l)

/-- `re.sub(r'^(marque|brand):\s*', '', brand, flags=re.IGNORECASE)`. -/
def stripBrandLabel (l : List Char) : List Char :=
  if isPrefixCI "marque:".toList l then (l.drop 7).dropWhile isPySpace
  else if isPrefixCI "brand:".toList l then (l.drop 6).dropWhile isPySpace
  else l

/-- `DataProcessor.normalize_brand` (`utils/data_processor.py`, lines 91-104). -/
def normalize_brand (brand : String) : String :=
  if brand = "" then ""
  else
    let b := pyStrip (stripBrandLabel brand.toList)
    if b = [] then String.mk b else String.mk (pyTitle b)

/-! ## `DataProcessor.determine_availability` -/

/-- The raw, supplier-specific record (a Python dict); a missing key reads as
the default of its field, matching `product_data.get(key, default)`. -/
structure RawProduct where
  product_url : String := ""
  sku_id : String := ""
  product_name : String := ""
  brand : String := ""
  category : String := ""
  description : String := ""
  rating : String := ""
  price : String := ""
  price_currency : Option String := none
  original_price : String := ""
  discount_rate : String := ""
  measurement : List (String × String) := []
  image_urls : List String := []
  image_url : List String := []
deriving DecidableEq, Repr

/-- The `availability_indicators` dict, in Python insertion (= iteration)
order. -/
def availabilityIndicators : List (String × List String) :=
  [("in_stock", ["en stock", "disponible", "available", "in stock"]),
   ("out_of_stock", ["rupture", "indisponible", "out of stock", "épuisé"]),
   ("limited", ["limité", "limited", "dernières pièces"])]

/-- The `for status, indicators in ...: if any(...): return status` loop. -/
def firstMatchingStatus (text : List Char) : List (String × List String) → String
  | [] => "unknown"
  | (status, inds) :: rest =>
    if inds.any (fun i => containsSub text i.toList) then status
    else firstMatchingStatus text rest

/-- `DataProcessor.determine_availability` (`utils/data_processor.py`,
lines 106-122). -/
def determine_availability (r : RawProduct) : String :=
  let text := pyLower ((r.product_name ++ " " ++ r.description).toList)
  firstMatchingStatus text availabilityIndicators

/-! ## `DataProcessor.generate_product_id` and its MD5 hash

`hashlib.md5(product_url.encode()).hexdigest()[:8]` is embedded bit-faithfully:
UTF-8 encoding of the URL, the RFC 1321 MD5 compression over `Nat` reduced
modulo `2 ^ 32`, and lowercase hex output. -/

/-- Reduce modulo `2 ^ 32`. -/
def m32 (x : Nat) : Nat := x % 4294967296

/-- 32-bit left rotation. -/
def rotl32 (s x : Nat) : Nat := ((x <<< s) % 4294967296) ||| (x >>> (32 - s))

/-- 32-bit complement. -/
def not32 (x : Nat) : Nat := x ^^^ 4294967295

/-- UTF-8 encoding of one code point (Python `str.encode()`). -/
def utf8Char (c : Char) : List Nat :=
  let n := c.toNat
  if n < 128 then [n]
  else if n < 2048 then
    [192 ||| (n >>> 6), 128 ||| (n &&& 63)]
  else if n < 65536 then
    [224 ||| (n >>> 12), 128 ||| ((n >>> 6) &&& 63), 128 ||| (n &&& 63)]
  else
    [240 ||| (n >>> 18), 128 ||| ((n >>> 12) &&& 63),
     128 ||| ((n >>> 6) &&& 63), 128 ||| (n &&& 63)]

def utf8Bytes (s : String) : List Nat := (s.toList.map utf8Char).flatten

/-- The 64 MD5 sine-derived constants `K`. -/
def md5K : List Nat :=
  [0xd76aa478, 0xe8c7b756, 0x242070db, 0xc1bdceee,
   0xf57c0faf, 0x4787c62a, 0xa8304613, 0xfd469501,
   0x698098d8, 0x8b44f7af, 0xffff5bb1, 0x895cd7be,
   0x6b901122, 0xfd987193, 0xa679438e, 0x49b40821,
   0xf61e2562, 0xc040b340, 0x265e5a51, 0xe9b6c7aa,
   0xd62f105d, 0x02441453, 0xd8a1e681, 0xe7d3fbc8,
   0x21e1cde6, 0xc33707d6, 0xf4d50d87, 0x455a14ed,
   0xa9e3e905, 0xfcefa3f8, 0x676f02d9, 0x8d2a4c8a,
   0xfffa3942, 0x8771f681, 0x6d9d6122, 0xfde5380c,
   0xa4beea44, 0x4bdecfa9, 0xf6bb4b60, 0xbebfbc70,
   0x289b7ec6, 0xeaa127fa, 0xd4ef3085, 0x04881d05,
   0xd9d4d039, 0xe6db99e5, 0x1fa27cf8, 0xc4ac5665,
   0xf4292244, 0x432aff97, 0xab9423a7, 0xfc93a039,
   0x655b59c3, 0x8f0ccc92, 0xffeff47d, 0x85845dd1,
   0x6fa87e4f, 0xfe2ce6e0, 0xa3014314, 0x4e0811a1,
   0xf7537e82, 0xbd3af235, 0x2ad7d2bb, 0xeb86d391]

/-- The 64 MD5 per-step rotation amounts. -/
def md5S : List Nat :=
  [7, 12, 17, 22, 7, 12, 17, 22, 7, 12, 17, 22, 7, 12, 17, 22,
   5, 9, 14, 20, 5, 9, 14, 20, 5, 9, 14, 20, 5, 9, 14, 20,
   4, 11, 16, 23, 4, 11, 16, 23, 4, 11, 16, 23, 4, 11, 16, 23,
   6, 10, 15, 21, 6, 10, 15, 21, 6, 10, 15, 21, 6, 10, 15, 21]

/-- The MD5 round function selected by the step index. -/
def md5F (i b c d : Nat) : Nat :=
  if i < 16 then (b &&& c) ||| (not32 b &&& d)
  else if i < 32 then (d &&& b) ||| (not32 d &&& c)
  else if i < 48 then b ^^^ c ^^^ d
  else c ^^^ (b ||| not32 d)

/-- The message-word index used at step `i`. -/
def md5G (i : Nat) : Nat :=
  if i < 16 then i
  else if i < 32 then (5 * i + 1) % 16
  else if i < 48 then (3 * i + 5) % 16
  else (7 * i) % 16

/-- Little-endian bytes of `n`, `k` bytes wide. -/
def leBytes : Nat → Nat → List Nat
  | 0, _ => []
  | k + 1, n => (n % 256) :: leBytes k (n / 256)

/-- RFC 1321 padding: `0x80`, zeros to 56 mod 64, then the 64-bit bit length. -/
def md5Pad (msg : List Nat) : List Nat :=
  let z := (120 - (msg.length + 1) % 64) % 64
  msg ++ 128 :: List.replicate z 0 ++ leBytes 8 (8 * msg.length)

/-- Group the 64 bytes of one block into 16 little-endian 32-bit words. -/
def bytesToWords : List Nat → List Nat
  | b0 :: b1 :: b2 :: b3 :: rest =>
    (b0 + 256 * (b1 + 256 * (b2 + 256 * b3))) :: bytesToWords rest
  | _ => []

/-- One MD5 step on the running state `(a, b, c, d)`. -/
def md5Step (M : List Nat) (st : Nat × Nat × Nat × Nat) (i : Nat) :
    Nat × Nat × Nat × Nat :=
  let (a, b, c, d) := st
  let f := m32 (md5F i b c d + a + md5K.getD i 0 + M.getD (md5G i) 0)
  (d, m32 (b + rotl32 (md5S.getD i 0) f), b, c)

/-- One 64-byte block of the MD5 compression. -/
def md5Block (st : Nat × Nat × Nat × Nat) (block : List Nat) :
    Nat × Nat × Nat × Nat :=
  let M := bytesToWords block
  let (a, b, c, d) := (List.range 64).foldl (md5Step M) st
  (m32 (st.1 + a), m32 (st.2.1 + b), m32 (st.2.2.1 + c), m32 (st.2.2.2 + d))

/-- The 64-byte blocks of a padded message (whose length is a multiple
of 64). -/
def chunks64 (l : List Nat) : List (List Nat) :=
  (List.range (l.length / 64)).map (fun i => (l.drop (64 * i)).take 64)

def hexDigit (n : Nat) : Char :=
  if n < 10 then Char.ofNat (48 + n) else Char.ofNat (87 + n)

def byteToHex (b : Nat) : List Char := [hexDigit (b / 16), hexDigit (b % 16)]

/-- `hashlib.md5(bytes).hexdigest()` as a character list. -/
def md5HexChars (msg : List Nat) : List Char :=
  let (a, b, c, d) :=
    (chunks64 (md5Pad msg)).foldl md5Block
      (0x67452301, 0xefcdab89, 0x98badcfe, 0x10325476)
  ((leBytes 4 a ++ leBytes 4 b ++ leBytes 4 c ++ leBytes 4 d).map byteToHex).flatten

def md5Hexdigest (s : String) : String := String.mk (md5HexChars (utf8Bytes s))

/-- `DataProcessor.generate_product_id` (`utils/data_processor.py`,
lines 22-29). -/
def generate_product_id (supplier product_url : String) (sku_id : String := "") :
    String :=
  if sku_id ≠ "" then supplier ++ "_" ++ sku_id
  else supplier ++ "_" ++ String.mk ((md5HexChars (utf8Bytes product_url)).take 8)

/-! ## `DataProcessor.normalize_measurement` and `validate_url` -/

/-- Maximal digit run at the head, with an optional `.` + digit-run tail:
the text matched by `re.search(r'(\d+(?:\.\d+)?)', v)` once its start is
found. -/
def takeNumber (l : List Char) : List Char :=
  let ds := l.takeWhile (fun c => c.isDigit)
  match l.drop ds.length with
  | '.' :: r2 =>
    let fs := r2.takeWhile (fun c => c.isDigit)
    if fs = [] then ds else ds ++ '.' :: fs
  | _ => ds

/-- First match of `re.search(r'(\d+(?:\.\d+)?)', v)`. -/
def extractNumeric : List Char → Option (List Char)
  | [] => none
  | c :: cs => if c.isDigit then some (takeNumber (c :: cs)) else extractNumeric cs

/-- The `data_processing` configuration read in `DataProcessor.__init__`,
plus the `output`/`remove_duplicates` switches other methods read. -/
structure Config where
  priceCurrency : String := "EUR"
  measurementUnit : String := "cm"
  removeDuplicates : Bool := true
deriving DecidableEq, Repr

/-- `DataProcessor.normalize_measurement` (`utils/data_processor.py`,
lines 59-78); dicts are modelled as association lists in insertion order. -/
def normalize_measurement (cfg : Config) (m : List (String × String)) :
    List (String × String) :=
  let normalized := m.filterMap (fun kv =>
    if kv.2 = "" then none
    else match extractNumeric kv.2.toList with
      | none => none
      | some n => some (kv.1, String.mk n))
  if normalized = [] then [] else normalized ++ [("unit", cfg.measurementUnit)]

/-- Split at the first occurrence of `c`: the part before and the part after. -/
def splitFirst (c : Char) (l : List Char) : Option (List Char × List Char) :=
  if c ∈ l then some (l.takeWhile (fun x => x ≠ c), (l.dropWhile (fun x => x ≠ c)).drop 1)
  else none

/-- `DataProcessor.validate_url` (`utils/data_processor.py`, lines 80-89):
`urlparse` yields a non-empty scheme and netloc.  The scheme must be present
before `:`; the netloc is what follows `//` up to the next delimiter. -/
def validate_url (url : String) : Bool :=
  if url = "" then false
  else
    match splitFirst ':' url.toList with
    | none => false
    | some (scheme, rest) =>
      (match scheme with
       | [] => false
       | c :: cs => c.isAlpha &&
           cs.all (fun x => x.isAlphanum || x = '+' || x = '-' || x = '.'))
      && (match rest with
          | '/' :: '/' :: netrest =>
            (netrest.takeWhile (fun x => x ≠ '/' && x ≠ '?' && x ≠ '#')) ≠ []
          | _ => false)

/-! ## `DataProcessor.process_product` -/

structure ProductMetadata where
  scraped_at : String
  supplier_id : String
  data_version : String
deriving DecidableEq, Repr

/-- The canonical processed product dict built by
`DataProcessor.process_product`. -/
structure Product where
  id : String
  supplier : String
  category : String
  product_name : String
  brand : String
  product_url : String
  sku_id : String
  description : String
  rating : String
  timestamp : String
  price : String
  price_currency : String
  original_price : Option String
  discount_rate : Option String
  measurement : List (String × String)
  image_urls : List String
  availability : String
  metadata : ProductMetadata
deriving DecidableEq, Repr

/-- The image-URL validation/deduplication loop of `process_product`. -/
def filterImageUrls (seen : List String) : List String → List String
  | [] => []
  | img :: rest =>
    if img ≠ "" && validate_url img && img ∉ seen then
      img :: filterImageUrls (img :: seen) rest
    else filterImageUrls seen rest

/-- `DataProcessor.process_product` (`utils/data_processor.py`, lines
124-192).  `now` stands for `datetime.utcnow().isoformat() + "Z"`. -/
def process_product (cfg : Config) (product_data : RawProduct)
    (supplier : String) (now : String) : Product :=
  let id := generate_product_id supplier product_data.product_url product_data.sku_id
  let currency := product_data.price_currency.getD cfg.priceCurrency
  let price_data := normalize_price product_data.price currency
  let image_urls :=
    if product_data.image_urls ≠ [] then product_data.image_urls
    else product_data.image_url
  { id := id
    supplier := supplier
    category := product_data.category
    product_name := product_data.product_name
    brand := normalize_brand product_data.brand
    product_url := product_data.product_url
    sku_id := product_data.sku_id
    description := product_data.description
    rating := product_data.rating
    timestamp := now
    price := price_data.price
    price_currency := price_data.price_currency
    original_price :=
      if product_data.original_price ≠ "" then
        some (normalize_price product_data.original_price currency).price
      else none
    discount_rate :=
      if product_data.discount_rate ≠ "" then some product_data.discount_rate
      else none
    measurement := normalize_measurement cfg product_data.measurement
    image_urls := filterImageUrls [] image_urls
    availability := determine_availability product_data
    metadata := ⟨now, supplier ++ "_" ++ id, "1.0"⟩ }

/-! ## `DataProcessor.remove_duplicates`, `validate_product`,
`process_products_batch` -/

/-- The dedup key `f"{product.get('product_url', '')}_{product.get('product_name', '')}"`. -/
def productKey (p : Product) : String := p.product_url ++ "_" ++ p.product_name

/-- The `for product in products` loop of `remove_duplicates`, carrying the
`seen_products` set (a list queried by membership). -/
def dedupGo (seen : List String) : List Product → List Product
  | [] => []
  | p :: ps =>
    if productKey p ∈ seen then dedupGo seen ps
    else p :: dedupGo (productKey p :: seen) ps

/-- `DataProcessor.remove_duplicates` (`utils/data_processor.py`,
lines 194-207). -/
def remove_duplicates (products : List Product) : List Product :=
  dedupGo [] products

/-- The specification's reading of first-occurrence deduplication: keep the
head and recursively keep the first occurrence of every later key. -/
def keepFirstOccurrences : List Product → List Product
  | [] => []
  | p :: ps =>
    p :: keepFirstOccurrences (ps.filter (fun q => productKey q ≠ productKey p))
termination_by l => l.length
decreasing_by
  exact Nat.lt_succ_of_le (List.length_filter_le _ _)

/-- `DataProcessor.validate_product` (`utils/data_processor.py`,
lines 209-217). -/
def validate_product (p : Product) : Bool :=
  p.product_name ≠ "" && p.product_url ≠ "" && p.price ≠ ""

/-- An entry of the run's error list (`self.stats['errors']` in
`scraper.py`). -/
structure BatchError where
  supplier : String
  product : String
  error : String
deriving DecidableEq, Repr

/-- The `try: processed = process_product(...)` body.  The embedded
processing is total, so the `except` branch of the source can never be
reached; it is modelled by the `none` case of this option. -/
def tryProcessProduct (cfg : Config) (product_data : RawProduct)
    (supplier : String) (now : String) : Option Product :=
  some (process_product cfg product_data supplier now)

/-- `DataProcessor.process_products_batch` (`utils/data_processor.py`,
lines 219-236): keep the records whose processed product validates, then
deduplicate when configured. -/
def process_products_batch (cfg : Config) (supplier now : String)
    (products : List RawProduct) : List Product :=
  let processed := products.filterMap (fun p =>
    match tryProcessProduct cfg p supplier now with
    | some pr => if validate_product pr then some pr else none
    | none => none)
  if cfg.removeDuplicates then remove_duplicates processed else processed

/-- The run's error list produced while processing one batch: `scraper.py`
appends `{supplier, product-name, error}` only in the `except` branch
(lines 119-126); the silent `validate_product` drop in
`process_products_batch` appends nothing. -/
def batchRunErrors (cfg : Config) (supplier now : String)
    (products : List RawProduct) : List BatchError :=
  products.foldl (fun errs p =>
    match tryProcessProduct cfg p supplier now with
    | some _ => errs
    | none => errs ++ [⟨supplier, p.product_name, "processing error"⟩]) []

/-! ## `OutputManager` session persistence (`utils/logger.py`) -/

structure SessionMetadata where
  scraper : String
  session_id : String
  scraped_at : String
  total_products : Nat
  file_version : String
  last_updated : Option String
deriving DecidableEq, Repr

/-- The persisted JSON document `{"metadata": ..., "products": [...]}` of one
scraping session. -/
structure SessionData (α : Type) where
  metadata : SessionMetadata
  products : List α
deriving DecidableEq, Repr

/-- The JSON skeleton written by `OutputManager.initialize_session_files`
(`utils/logger.py`, lines 182-198). -/
def initialize_session_data (scraper_name session_id now : String) :
    SessionData α :=
  ⟨⟨scraper_name, session_id, now, 0, "1.0", none⟩, []⟩

/-- The data transformation of `OutputManager.append_products_to_session`
(`utils/logger.py`, lines 236-248): read the current state, extend the
product list, recompute `total_products`, stamp `last_updated`. -/
def append_products_to_session (data : SessionData α) (products : List α)
    (now : String) : SessionData α :=
  if products.isEmpty then data
  else
    { metadata :=
        { data.metadata with
          total_products := (data.products ++ products).length
          last_updated := some now }
      products := data.products ++ products }

/-- A JSON-like serialization of a session document (the shape
`json.dump` writes). -/
def encodeSession (d : SessionData String) : String :=
  "\x7b\"metadata\": \x7b\"scraper\": \"" ++ d.metadata.scraper ++
    "\", \"session_id\": \"" ++ d.metadata.session_id ++
    "\", \"scraped_at\": \"" ++ d.metadata.scraped_at ++
    "\", \"total_products\": " ++ toString d.metadata.total_products ++
    "\x7d, \"products\": [" ++ String.intercalate ", " d.products ++ "]\x7d"

/-- The file contents observable while `append_products_to_session` rewrites
the session file: the prior content, then — because the source runs
`open(json_filepath, 'w')`, which truncates in place before `json.dump`
writes — the empty file, then the new content.  A crash can expose any of
these states. -/
def fileStatesDuringRewrite (old new : String) : List String :=
  [old, "", new]

/-! ## `APIServer` category endpoint (`api/server.py`) -/

/-- The outcome of an endpoint call: a response body, or a raised
`HTTPException(status_code, detail)`. -/
inductive ApiResult (α : Type) where
  | ok (body : α)
  | httpError (status : Nat) (detail : String)
deriving DecidableEq, Repr

/-- `get_materials_by_category` (`api/server.py`, lines 123-146): filter by
category, optionally by supplier, paginate, and raise 404 when the resulting
page is empty. -/
def get_materials_by_category (products : List Product) (category : String)
    (supplier : Option String) (limit : Nat := 100) (offset : Nat := 0) :
    ApiResult (List Product) :=
  let ps1 := products.filter (fun p => p.category = category)
  let ps2 := match supplier with
    | none => ps1
    | some s => ps1.filter (fun p => p.supplier = s)
  let ps3 := (ps2.drop offset).take limit
  if ps3 = [] then
    ApiResult.httpError 404 ("No products found for category: " ++ category)
  else ApiResult.ok ps3

/-- Specification-side reading of the category filter (exact match). -/
def filterByCategory (category : String) (ps : List Product) : List Product :=
  ps.filter (fun p => p.category = category)

/-- Specification-side reading of the optional supplier filter. -/
def filterBySupplier (supplier : Option String) (ps : List Product) :
    List Product :=
  match supplier with
  | none => ps
  | some s => ps.filter (fun p => p.supplier = s)

/-- Offset/limit pagination, `products[offset:offset+limit]` for
non-negative bounds. -/
def paginate (offset limit : Nat) (ps : List Product) : List Product :=
  (ps.drop offset).take limit

/-- Concrete products used to exercise deduplication and the query service. -/
def sampleProduct (url name : String) : Product :=
  { id := "", supplier := "", category := "", product_name := name, brand := "",
    product_url := url, sku_id := "", description := "", rating := "",
    timestamp := "", price := "", price_currency := "EUR",
    original_price := none, discount_rate := none, measurement := [],
    image_urls := [], availability := "unknown", metadata := ⟨"", "", "1.0"⟩ }

/-- A product of category `Peinture` from supplier `Castorama`. -/
def paintProduct : Product :=
  { sampleProduct "https://example.com/p" "Tile" with
    category := "Peinture", supplier := "Castorama" }

/-! ## Helper lemmas: `pyRfind`, `afterLast`, `splitOnChar` -/

theorem pyRfind_nonneg_iff (c : Char) (l : List Char) :
    0 ≤ pyRfind l c ↔ c ∈ l := by
  induction l with
  | nil => simp [pyRfind]
  | cons x xs ih =>
    simp only [pyRfind, List.mem_cons]
    by_cases hr : 0 ≤ pyRfind xs c
    · simp only [if_pos hr]
      constructor
      · intro _; exact Or.inr (ih.mp hr)
      · intro _; omega
    · simp only [if_neg hr]
      by_cases hx : x = c
      · simp [hx]
      · simp only [if_neg hx]
        constructor
        · intro h; omega
        · rintro (h | h)
          · exact absurd h.symm hx
          · exact absurd (ih.mpr h) hr

theorem mem_afterLast (c x : Char) (l : List Char) (h : x ∈ afterLast c l) :
    x ∈ l := by
  induction l with
  | nil => simp [afterLast] at h
  | cons y ys ih =>
    simp only [afterLast] at h
    by_cases hm : c ∈ ys
    · exact List.mem_cons_of_mem _ (ih (by simpa [if_pos hm] using h))
    · simp only [if_neg hm] at h
      by_cases hy : y = c
      · exact List.mem_cons_of_mem _ (by simpa [if_pos hy] using h)
      · simpa [if_neg hy] using h

theorem pyRfind_gt_iff (a b : Char) (hab : a ≠ b) :
    ∀ l : List Char, a ∈ l → b ∈ l →
      (pyRfind l a > pyRfind l b ↔ b ∉ afterLast a l) := by
  intro l
  induction l with
  | nil => intro h; simp at h
  | cons x xs ih =>
    intro ha hb
    by_cases hax : a ∈ xs
    · have h1 : 0 ≤ pyRfind xs a := (pyRfind_nonneg_iff a xs).mpr hax
      by_cases hbx : b ∈ xs
      · -- both occur later: shift both indices by one
        have h2 : 0 ≤ pyRfind xs b := (pyRfind_nonneg_iff b xs).mpr hbx
        have := ih hax hbx
        simp only [pyRfind, if_pos h1, if_pos h2, afterLast, if_pos hax]
        constructor
        · intro h; exact this.mp (by omega)
        · intro h; have := this.mpr h; omega
      · -- b occurs only at the head, before every a
        have hxb : x = b := by
          rcases List.mem_cons.mp hb with h | h
          · exact h.symm
          · exact absurd h hbx
        have h2 : ¬ 0 ≤ pyRfind xs b := by
          intro hcon; exact hbx ((pyRfind_nonneg_iff b xs).mp hcon)
        simp only [pyRfind, if_pos h1, if_neg h2, if_pos hxb, afterLast,
          if_pos hax]
        constructor
        · intro _; intro hmem; exact hbx (mem_afterLast a b xs hmem)
        · intro _; omega
    · -- a occurs only at the head
      have hxa : x = a := by
        rcases List.mem_cons.mp ha with h | h
        · exact h.symm
        · exact absurd h hax
      have h1 : ¬ 0 ≤ pyRfind xs a := by
        intro hcon; exact hax ((pyRfind_nonneg_iff a xs).mp hcon)
      have hbx : b ∈ xs := by
        rcases List.mem_cons.mp hb with h | h
        · exact absurd (hxa ▸ h.symm) hab
        · exact h
      have h2 : 0 ≤ pyRfind xs b := (pyRfind_nonneg_iff b xs).mpr hbx
      simp only [pyRfind, if_neg h1, if_pos hxa, if_pos h2, afterLast,
        if_neg hax]
      constructor
      · intro h; omega
      · intro h; exact absurd hbx h

theorem splitOnChar_ne_nil (c : Char) (l : List Char) :
    splitOnChar c l ≠ [] := by
  cases l with
  | nil => simp [splitOnChar]
  | cons x xs =>
    simp only [splitOnChar]
    by_cases hx : x = c
    · simp [hx]
    · simp only [if_neg hx]
      cases splitOnChar c xs <;> simp

theorem splitOnChar_length (c : Char) (l : List Char) :
    (splitOnChar c l).length = l.count c + 1 := by
  induction l with
  | nil => simp [splitOnChar]
  | cons x xs ih =>
    simp only [splitOnChar]
    by_cases hx : x = c
    · simp [hx, List.count_cons, ih]
    · simp only [if_neg hx]
      rcases hsp : splitOnChar c xs with _ | ⟨h, t⟩
      · exact absurd hsp (splitOnChar_ne_nil c xs)
      · have : (h :: t).length = xs.count c + 1 := hsp ▸ ih
        simp only [List.length_cons] at this ⊢
        have hb : (x == c) = false := by simp [hx]
        simp [List.count_cons, hb]
        omega

theorem splitOnChar_of_not_mem (c : Char) (l : List Char) (h : c ∉ l) :
    splitOnChar c l = [l] := by
  induction l with
  | nil => simp [splitOnChar]
  | cons x xs ih =>
    have hx : x ≠ c := fun hc => h (hc ▸ List.mem_cons_self x xs)
    have hxs : c ∉ xs := fun hc => h (List.mem_cons_of_mem _ hc)
    simp [splitOnChar, if_neg hx, ih hxs]

theorem splitOnChar_count_one (c : Char) (l : List Char)
    (h : l.count c = 1) :
    splitOnChar c l = [l.takeWhile (fun x => x ≠ c), afterLast c l] := by
  induction l with
  | nil => simp at h
  | cons x xs ih =>
    by_cases hx : x = c
    · have hxs : xs.count c = 0 := by
        have hb : (x == c) = true := by simp [hx]
        simp [List.count_cons, hb] at h
        omega
      have hnm : c ∉ xs := by simpa using List.count_eq_zero.mp hxs
      have htw : (x :: xs).takeWhile (fun x => x ≠ c) = [] := by
        simp [List.takeWhile, hx]
      simp [splitOnChar, hx, splitOnChar_of_not_mem c xs hnm, htw,
        afterLast, hnm]
    · have hb : (x == c) = false := by simp [hx]
      have hxs : xs.count c = 1 := by
        simp [List.count_cons, hb] at h
        omega
      have hm : c ∈ xs := List.count_pos_iff.mp (by omega)
      simp [splitOnChar, if_neg hx, ih hxs, List.takeWhile_cons, hx,
        afterLast, hm]

/-! ## Helper lemmas: separator disambiguation -/

theorem disambiguateSeparators_eq_spec (l : List Char) :
    disambiguateSeparators l = sepDisambiguationSpec l := by
  unfold disambiguateSeparators sepDisambiguationSpec
  by_cases hboth : ',' ∈ l ∧ '.' ∈ l
  · simp only [if_pos hboth]
    have hiff := pyRfind_gt_iff ',' '.' (by decide) l hboth.1 hboth.2
    by_cases hgt : pyRfind l ',' > pyRfind l '.'
    · have hnm : '.' ∉ afterLast ',' l := hiff.mp hgt
      simp [if_pos hgt, if_neg hnm]
    · have hm : '.' ∈ afterLast ',' l := by
        by_contra hc
        exact hgt (hiff.mpr hc)
      simp [if_neg hgt, if_pos hm]
  · simp only [if_neg hboth]
    by_cases hc : ',' ∈ l
    · simp only [if_pos hc]
      by_cases h1 : l.count ',' = 1
      · have hsp := splitOnChar_count_one ',' l h1
        simp [hsp, h1]
      · have hlen := splitOnChar_length ',' l
        have hne : (splitOnChar ',' l).length ≠ 2 := by omega
        simp [hne, h1]
    · simp [hc]

theorem chars_of_disambiguate (l : List Char)
    (h : ∀ x ∈ l, x.isDigit = true ∨ x = '.' ∨ x = ',') :
    ∀ c ∈ disambiguateSeparators l, c.isDigit = true ∨ c = '.' := by
  intro c hc
  have hfilter : ∀ (a : Char), ∀ x ∈ l.filter (fun c => c ≠ a),
      x ∈ l ∧ x ≠ a := by
    intro a x hx
    have := List.mem_filter.mp hx
    exact ⟨this.1, by simpa using this.2⟩
  have hmap : ∀ x, x ∈ l → (if x = ',' then '.' else x).isDigit = true ∨
      (if x = ',' then '.' else x) = '.' := by
    intro x hx
    by_cases hxc : x = ','
    · simp [hxc]
    · rcases h x hx with hd | hd | hd
      · simp [if_neg hxc, hd]
      · simp [if_neg hxc, hd]
      · exact absurd hd hxc
  unfold disambiguateSeparators at hc
  dsimp only at hc
  split at hc
  · split at hc
    · rcases List.mem_map.mp hc with ⟨a, ha, rfl⟩
      have ⟨ha1, _⟩ := hfilter '.' a ha
      exact hmap a ha1
    · have ⟨h1, h2⟩ := hfilter ',' c hc
      rcases h c h1 with hd | hd | hd
      · exact Or.inl hd
      · exact Or.inr hd
      · exact absurd hd h2
  · split at hc
    · split at hc
      · rcases List.mem_map.mp hc with ⟨a, ha, rfl⟩
        exact hmap a ha
      · have ⟨h1, h2⟩ := hfilter ',' c hc
        rcases h c h1 with hd | hd | hd
        · exact Or.inl hd
        · exact Or.inr hd
        · exact absurd hd h2
    · rcases h c hc with hd | hd | hd
      · exact Or.inl hd
      · exact Or.inr hd
      · rename_i hcm
        exact absurd (hd ▸ hc) hcm

theorem mem_cleanPrice (price : String) :
    ∀ x ∈ cleanPrice price, x.isDigit = true ∨ x = '.' ∨ x = ',' := by
  intro x hx
  have := (List.mem_filter.mp hx).2
  rcases Bool.or_eq_true_iff.mp this with h | h
  · rcases Bool.or_eq_true_iff.mp h with h2 | h2
    · exact Or.inl h2
    · exact Or.inr (Or.inl (by simpa using h2))
  · exact Or.inr (Or.inr (by simpa using h))

/-! ## Claim C1 -/

/-- C1 counterexample: on the input `"1.2.3"` the returned price is
`"1.2.3"`, which contains two `.` characters, falsifying the claim that the
price always contains at most one `.`. -/
theorem C1_price_two_dots_counterexample :
    (normalize_price "1.2.3" "EUR").price = "1.2.3" ∧
      ¬ ((normalize_price "1.2.3" "EUR").price.toList.count '.' ≤ 1) := by
  decide

/-- C1 (amended): for every input, every character of
`normalize_price(x).price` is a digit or a `.` — so the price never contains
currency symbols or commas, but it may contain more than one `.`. -/
theorem C1_price_digits_and_dots_only :
    ∀ (price currency : String),
      ∀ c ∈ (normalize_price price currency).price.toList,
        c.isDigit = true ∨ c = '.' := by
  intro price currency c hc
  unfold normalize_price at hc
  by_cases hp : price = ""
  · rw [if_pos hp] at hc
    simp [String.toList] at hc
  · rw [if_neg hp] at hc
    have hmem : c ∈ disambiguateSeparators (cleanPrice price) := by
      simpa [String.toList] using hc
    exact chars_of_disambiguate _ (mem_cleanPrice price) c hmem

/-- C1 witness: the character `'2'` of the normalized `"€25.99"` price is a
digit. -/
theorem C1_price_digits_and_dots_only_witness :
    '2' ∈ (normalize_price "€25.99" "EUR").price.toList ∧
      ('2'.isDigit = true ∨ '2' = '.') :=
  ⟨by decide, C1_price_digits_and_dots_only "€25.99" "EUR" '2' (by decide)⟩

/-! ## Claim C4 -/

/-- C4 counterexample: for `"1,234,56"` — only commas, and the text after the
last comma has length 2 — the code strips every comma and returns
`"123456"`, not the `"1234.56"` stated by the claim. -/
theorem C4_comma_groups_counterexample :
    (normalize_price "1,234,56" "EUR").price = "123456" ∧
      (normalize_price "1,234,56" "EUR").price ≠ "1234.56" := by
  decide

/-- C4 (amended): if both `,` and `.` appear in the cleaned input, the
rightmost of the two is the decimal separator and the other is removed; if
only `,` appears, it is converted to `.` exactly when the cleaned text
contains a single `,` with at most two characters after it, and otherwise
every `,` is stripped (so `"1,234,56"` yields `"123456"`). -/
theorem C4_separator_disambiguation :
    ∀ (price currency : String),
      normalize_price price currency =
        ⟨String.mk (sepDisambiguationSpec (cleanPrice price)), currency⟩ := by
  intro price currency
  unfold normalize_price
  by_cases hp : price = ""
  · subst hp
    have : cleanPrice "" = [] := by decide
    simp [this, sepDisambiguationSpec]
  · rw [if_neg hp, disambiguateSeparators_eq_spec]

/-! ## Claim C2 -/

/-- C2: evaluation of `normalize_brand` at the claimed inputs.  The code
returns `""` for `""` and `"N/A"` for `"N/A"` — not `"Unknown"` as the claim
and the repository's own test suite (`test_scraper.py::test_normalize_brand`)
require; no consumer collapses them either (`process_product` stores
`normalize_brand`'s output unchanged).  Only the title-casing part holds. -/
theorem C2_normalize_brand_eval :
    normalize_brand "" = "" ∧ normalize_brand "N/A" = "N/A" ∧
      normalize_brand "BRAND NAME" = "Brand Name" ∧
      (process_product {} { brand := "N/A" } "castorama" "T").brand = "N/A" := by
  decide

/-! ## Helper lemmas: deduplication -/

theorem dedupGo_nil (seen : List String) : dedupGo seen [] = [] := rfl

theorem dedupGo_cons (seen : List String) (p : Product) (ps : List Product) :
    dedupGo seen (p :: ps) =
      if productKey p ∈ seen then dedupGo seen ps
      else p :: dedupGo (productKey p :: seen) ps := rfl

theorem dedupGo_congr :
    ∀ (l : List Product) (s₁ s₂ : List String),
      (∀ k, k ∈ s₁ ↔ k ∈ s₂) → dedupGo s₁ l = dedupGo s₂ l := by
  intro l
  induction l with
  | nil => intro s₁ s₂ _; rfl
  | cons p ps ih =>
    intro s₁ s₂ hs
    by_cases h : productKey p ∈ s₁
    · rw [dedupGo_cons, dedupGo_cons, if_pos h, if_pos ((hs _).mp h)]
      exact ih s₁ s₂ hs
    · have h2 : productKey p ∉ s₂ := fun hc => h ((hs _).mpr hc)
      rw [dedupGo_cons, dedupGo_cons, if_neg h, if_neg h2]
      refine congrArg _ (ih _ _ ?_)
      intro k
      simp only [List.mem_cons]
      exact or_congr Iff.rfl (hs k)

theorem dedupGo_cons_seen (k : String) :
    ∀ (l : List Product) (seen : List String),
      dedupGo (k :: seen) l =
        dedupGo seen (l.filter (fun q => productKey q ≠ k)) := by
  intro l
  induction l with
  | nil => intro seen; rfl
  | cons p ps ih =>
    intro seen
    by_cases hpk : productKey p = k
    · have hmem : productKey p ∈ k :: seen := by simp [hpk]
      have hf : ¬ ((decide (productKey p ≠ k)) = true) := by simp [hpk]
      rw [dedupGo_cons, if_pos hmem, List.filter_cons, if_neg hf]
      exact ih seen
    · have hf : (decide (productKey p ≠ k)) = true := by simp [hpk]
      by_cases hmem : productKey p ∈ seen
      · have hmem2 : productKey p ∈ k :: seen := List.mem_cons_of_mem _ hmem
        rw [dedupGo_cons, if_pos hmem2, List.filter_cons, if_pos hf]
        rw [dedupGo_cons, if_pos hmem]
        exact ih seen
      · have hmem2 : productKey p ∉ k :: seen := by
          simp [List.mem_cons, hpk, hmem]
        rw [dedupGo_cons, if_neg hmem2, List.filter_cons, if_pos hf]
        rw [dedupGo_cons, if_neg hmem]
        refine congrArg _ ?_
        calc dedupGo (productKey p :: k :: seen) ps
            = dedupGo (k :: productKey p :: seen) ps := by
              refine dedupGo_congr ps _ _ ?_
              intro x
              simp only [List.mem_cons]
              tauto
          _ = dedupGo (productKey p :: seen)
                (ps.filter (fun q => productKey q ≠ k)) := ih _

theorem remove_duplicates_eq_keepFirst (l : List Product) :
    remove_duplicates l = keepFirstOccurrences l := by
  generalize hn : l.length = n
  induction n using Nat.strong_induction_on generalizing l with
  | _ n ih =>
    cases l with
    | nil => rw [remove_duplicates, dedupGo_nil, keepFirstOccurrences]
    | cons p ps =>
      rw [keepFirstOccurrences]
      have h1 : remove_duplicates (p :: ps) =
          p :: dedupGo [productKey p] ps := by
        rw [remove_duplicates, dedupGo_cons, if_neg (List.not_mem_nil _)]
      rw [h1, dedupGo_cons_seen]
      refine congrArg _ ?_
      have hlen : (ps.filter (fun q => productKey q ≠ productKey p)).length <
          n := by
        have := List.length_filter_le
          (fun q => decide (productKey q ≠ productKey p)) ps
        simp only [List.length_cons] at hn
        omega
      exact ih _ hlen _ rfl

theorem dedupGo_keys_fresh :
    ∀ (l : List Product) (seen : List String),
      ((dedupGo seen l).map productKey).Nodup ∧
        ∀ p ∈ dedupGo seen l, productKey p ∉ seen := by
  intro l
  induction l with
  | nil => intro seen; exact ⟨List.nodup_nil, by simp [dedupGo_nil]⟩
  | cons p ps ih =>
    intro seen
    by_cases hmem : productKey p ∈ seen
    · rw [dedupGo_cons, if_pos hmem]
      exact ih seen
    · rw [dedupGo_cons, if_neg hmem]
      obtain ⟨hnd, hfresh⟩ := ih (productKey p :: seen)
      constructor
      · simp only [List.map_cons, List.nodup_cons]
        refine ⟨?_, hnd⟩
        intro hc
        rcases List.mem_map.mp hc with ⟨q, hq, hkq⟩
        exact hfresh q hq (hkq ▸ List.mem_cons_self _ _)
      · intro q hq
        rcases List.mem_cons.mp hq with h | h
        · exact h ▸ hmem
        · intro hc
          exact hfresh q h (List.mem_cons_of_mem _ hc)

theorem dedupGo_id_of_nodup :
    ∀ (l : List Product) (seen : List String),
      ((l.map productKey).Nodup) → (∀ p ∈ l, productKey p ∉ seen) →
        dedupGo seen l = l := by
  intro l
  induction l with
  | nil => intro seen _ _; rfl
  | cons p ps ih =>
    intro seen hnd hfresh
    have hmem : productKey p ∉ seen := hfresh p (List.mem_cons_self _ _)
    rw [dedupGo_cons, if_neg hmem]
    refine congrArg _ (ih _ ?_ ?_)
    · rw [List.map_cons, List.nodup_cons] at hnd
      exact hnd.2
    · intro q hq
      intro hc
      rw [List.map_cons, List.nodup_cons] at hnd
      rcases List.mem_cons.mp hc with h | h
      · exact hnd.1 (h ▸ List.mem_map_of_mem productKey hq)
      · exact hfresh q (List.mem_cons_of_mem _ hq) h

theorem dedupGo_sublist :
    ∀ (l : List Product) (seen : List String),
      List.Sublist (dedupGo seen l) l := by
  intro l
  induction l with
  | nil => intro seen; simp [dedupGo_nil]
  | cons p ps ih =>
    intro seen
    by_cases hmem : productKey p ∈ seen
    · rw [dedupGo_cons, if_pos hmem]
      exact List.Sublist.cons p (ih seen)
    · rw [dedupGo_cons, if_neg hmem]
      exact List.Sublist.cons₂ p (ih _)

/-! ## Claim C8 -/

/-- C8: `remove_duplicates` is idempotent, and its output is exactly the
subsequence of first occurrences of each dedup key, in input order. -/
theorem C8_dedupe_idempotent_first_occurrence :
    ∀ xs : List Product,
      remove_duplicates (remove_duplicates xs) = remove_duplicates xs ∧
        remove_duplicates xs = keepFirstOccurrences xs ∧
        List.Sublist (remove_duplicates xs) xs := by
  intro xs
  refine ⟨?_, remove_duplicates_eq_keepFirst xs, dedupGo_sublist xs []⟩
  obtain ⟨hnd, _⟩ := dedupGo_keys_fresh xs []
  exact dedupGo_id_of_nodup _ [] hnd (by simp)

/-! ## Claim C5 -/

/-- C5 counterexample: the dedup key is the single string
`product_url + "_" + product_name`, so the distinct field pairs
`("a_b", "c")` and `("a", "b_c")` collide and the second product is merged
away although neither field matches — falsifying the claimed
"merged only if both fields match exactly". -/
theorem C5_key_collision_counterexample :
    remove_duplicates [sampleProduct "a_b" "c", sampleProduct "a" "b_c"] =
        [sampleProduct "a_b" "c"] ∧
      (sampleProduct "a_b" "c").product_url ≠
        (sampleProduct "a" "b_c").product_url ∧
      (sampleProduct "a_b" "c").product_name ≠
        (sampleProduct "a" "b_c").product_name := by
  decide

/-- C5 (amended): two adjacent products collapse to one entry if and only if
their keys `product_url + "_" + product_name` are equal; equality of both
fields implies key equality (duplicates always merge), but not conversely. -/
theorem C5_dedupe_key_is_concatenation :
    ∀ p q : Product,
      (remove_duplicates [p, q] = [p] ↔ productKey p = productKey q) ∧
        (p.product_url = q.product_url → p.product_name = q.product_name →
          productKey p = productKey q) := by
  intro p q
  constructor
  · constructor
    · intro h
      by_contra hne
      have : remove_duplicates [p, q] = [p, q] := by
        rw [remove_duplicates, dedupGo_cons, if_neg (List.not_mem_nil _),
          dedupGo_cons, if_neg (by simpa using fun hc => hne hc.symm),
          dedupGo_nil]
      rw [this] at h
      exact (by simp : ([p, q] : List Product) ≠ [p]) h
    · intro h
      rw [remove_duplicates, dedupGo_cons, if_neg (List.not_mem_nil _),
        dedupGo_cons, if_pos (by simp [h]), dedupGo_nil]
  · intro hu hn
    rw [productKey, productKey, hu, hn]

/-- C5 witness: instantiation of the amended dedup contract at a genuine
duplicate pair. -/
theorem C5_dedupe_key_is_concatenation_witness :
    remove_duplicates [sampleProduct "u" "n", sampleProduct "u" "n"] =
        [sampleProduct "u" "n"] :=
  ((C5_dedupe_key_is_concatenation (sampleProduct "u" "n")
    (sampleProduct "u" "n")).1).mpr rfl

/-! ## Claim C3 -/

/-- C3 counterexample: a record that carries a URL and a price but no
`product_name` is dropped by validation, yet the run's error list stays
empty — the claimed error entry is never appended for validation failures
(entries are only appended when processing raises). -/
theorem C3_dropped_without_error_entry :
    process_products_batch {} "castorama" "T"
        [{ product_url := "https://example.com/p", price := "9.99" }] = [] ∧
      batchRunErrors {} "castorama" "T"
        [{ product_url := "https://example.com/p", price := "9.99" }] = [] := by
  constructor
  · decide
  · rfl

/-- C3 (amended): a record whose processed product fails validation is
dropped and the rest of the batch is processed exactly as if the record were
absent, but no entry is appended to the run's error list for it. -/
theorem C3_invalid_record_dropped_batch_continues :
    ∀ (cfg : Config) (s now : String) (bad : RawProduct)
      (ps : List RawProduct),
      validate_product (process_product cfg bad s now) = false →
        process_products_batch cfg s now (bad :: ps) =
            process_products_batch cfg s now ps ∧
          batchRunErrors cfg s now (bad :: ps) = batchRunErrors cfg s now ps := by
  intro cfg s now bad ps h
  constructor
  · simp [process_products_batch, List.filterMap_cons, tryProcessProduct, h]
  · rfl

/-- C3 witness: the amended statement at a concrete invalid record followed
by a valid one. -/
theorem C3_invalid_record_dropped_batch_continues_witness :
    process_products_batch {} "castorama" "T"
        [{ product_url := "https://example.com/p", price := "9.99" },
         { product_url := "https://example.com/q", price := "5",
           product_name := "Tile" }] =
      process_products_batch {} "castorama" "T"
        [{ product_url := "https://example.com/q", price := "5",
           product_name := "Tile" }] :=
  (C3_invalid_record_dropped_batch_continues {} "castorama" "T"
    { product_url := "https://example.com/p", price := "9.99" }
    [{ product_url := "https://example.com/q", price := "5",
       product_name := "Tile" }] (by decide)).1

/-! ## Claim C6 -/

/-- C6 counterexample: the rewrite opens the session file with mode `'w'`,
which truncates in place; the empty file is an observable mid-write state
that equals neither the prior complete file nor the new one, so a crash
there loses the previously committed data. -/
theorem C6_truncated_state_visible :
    "" ∈ fileStatesDuringRewrite
        (encodeSession (initialize_session_data "castorama" "20240101" "t0"))
        (encodeSession (append_products_to_session
          (initialize_session_data "castorama" "20240101" "t0") ["p1"] "t1")) ∧
      "" ≠ encodeSession (initialize_session_data "castorama" "20240101" "t0") ∧
      "" ≠ encodeSession (append_products_to_session
        (initialize_session_data "castorama" "20240101" "t0") ["p1"] "t1") := by
  refine ⟨by simp [fileStatesDuringRewrite], ?_, ?_⟩ <;> decide

/-- C6 (amended): each non-empty append reads the current state, extends the
product list, recomputes `total_products` and stamps `last_updated` — but the
collection is rewritten in place by truncating the same file, not atomically
via write-to-temp-then-rename. -/
theorem C6_append_recomputes_totals :
    ∀ {α : Type} (d : SessionData α) (ps : List α) (now : String),
      ps ≠ [] →
        (append_products_to_session d ps now).products = d.products ++ ps ∧
          (append_products_to_session d ps now).metadata.total_products =
            (d.products ++ ps).length ∧
          (append_products_to_session d ps now).metadata.last_updated =
            some now := by
  intro α d ps now hps
  have hne : ps.isEmpty = false := by simp [List.isEmpty_iff, hps]
  rw [append_products_to_session]
  rw [if_neg (by simp [hne])]
  exact ⟨rfl, rfl, rfl⟩

/-- C6 witness: the amended statement at a concrete one-product append. -/
theorem C6_append_recomputes_totals_witness :
    (append_products_to_session
        (initialize_session_data "castorama" "20240101" "t0") ["p1"]
        "t1").products = [] ++ ["p1"] ∧
      (append_products_to_session
        (initialize_session_data "castorama" "20240101" "t0") ["p1"]
        "t1").metadata.total_products = ([] ++ ["p1"] : List String).length ∧
      (append_products_to_session
        (initialize_session_data "castorama" "20240101" "t0") ["p1"]
        "t1").metadata.last_updated = some "t1" :=
  C6_append_recomputes_totals
    (initialize_session_data "castorama" "20240101" "t0") ["p1"] "t1"
    (by decide)

/-! ## Claim C7 -/

/-- C7 counterexample: for a dataset in which the category `"Peinture"` does
match a product, both a non-matching supplier filter and an offset past the
end produce the 404 "not found" error, not an empty result list — the
endpoint does not distinguish the two conditions. -/
theorem C7_empty_after_filters_is_404 :
    paintProduct.category = "Peinture" ∧
      get_materials_by_category [paintProduct] "Peinture" (some "Manomano")
          100 0 =
        ApiResult.httpError 404 "No products found for category: Peinture" ∧
      get_materials_by_category [paintProduct] "Peinture" none 100 5 =
        ApiResult.httpError 404 "No products found for category: Peinture" := by
  decide

/-- C7 (amended): the endpoint raises 404 exactly when the page that remains
after the category filter, the optional supplier filter and pagination is
empty — whether or not the category matched anything — and otherwise returns
that non-empty page. -/
theorem C7_404_iff_final_page_empty :
    ∀ (ps : List Product) (cat : String) (sup : Option String)
      (lim off : Nat),
      (get_materials_by_category ps cat sup lim off =
          ApiResult.httpError 404 ("No products found for category: " ++ cat) ↔
        paginate off lim (filterBySupplier sup (filterByCategory cat ps)) = []) ∧
      (∀ l, get_materials_by_category ps cat sup lim off = ApiResult.ok l →
        l = paginate off lim (filterBySupplier sup (filterByCategory cat ps)) ∧
          l ≠ []) := by
  intro ps cat sup lim off
  cases sup with
  | none =>
    unfold get_materials_by_category paginate filterBySupplier filterByCategory
    dsimp only
    split
    · rename_i hempty
      refine ⟨⟨fun _ => hempty, fun _ => rfl⟩, ?_⟩
      intro l hl
      exact absurd hl (by simp)
    · rename_i hnonempty
      refine ⟨⟨fun hc => absurd hc (by simp), fun hc => absurd hc hnonempty⟩, ?_⟩
      intro l hl
      injection hl with h2
      subst h2
      exact ⟨rfl, hnonempty⟩
  | some s =>
    unfold get_materials_by_category paginate filterBySupplier filterByCategory
    dsimp only
    split
    · rename_i hempty
      refine ⟨⟨fun _ => hempty, fun _ => rfl⟩, ?_⟩
      intro l hl
      exact absurd hl (by simp)
    · rename_i hnonempty
      refine ⟨⟨fun hc => absurd hc (by simp), fun hc => absurd hc hnonempty⟩, ?_⟩
      intro l hl
      injection hl with h2
      subst h2
      exact ⟨rfl, hnonempty⟩

/-- C7 witness: the amended statement instantiated at the one-product
dataset. -/
theorem C7_404_iff_final_page_empty_witness :
    get_materials_by_category [paintProduct] "Peinture" (some "Manomano")
        100 0 =
      ApiResult.httpError 404 ("No products found for category: " ++ "Peinture") :=
  ((C7_404_iff_final_page_empty [paintProduct] "Peinture" (some "Manomano")
    100 0).1).mpr (by decide)

/-! ## Claim C9 -/

set_option maxRecDepth 100000 in
/-- C9 counterexample: for the fixed supplier `"castorama"` and URL `""`,
the distinct SKUs `"d41d8cd9"` and `""` yield the same id, because the empty
SKU falls back to the first 8 hex characters of `md5("")`, which are exactly
`d41d8cd9` — refuting "different sku values yield different ids". -/
theorem C9_sku_hash_collision_counterexample :
    generate_product_id "castorama" "" "d41d8cd9" =
        generate_product_id "castorama" "" "" ∧
      ("d41d8cd9" : String) ≠ "" := by
  constructor
  · decide
  · decide

/-- C9 (amended): `generate_product_id` is a pure function with the claimed
format — `supplier_sku` for a non-empty SKU, `supplier_` plus the first 8 hex
characters of `md5(url)` otherwise — and distinct NON-EMPTY SKUs always yield
distinct ids for a fixed supplier and URL; an empty SKU falls back to the URL
hash, which can coincide with a non-empty SKU equal to that hash prefix. -/
theorem C9_id_format_and_nonempty_sku_injective :
    ∀ s url sku : String,
      (sku ≠ "" → generate_product_id s url sku = s ++ "_" ++ sku) ∧
        (sku = "" → generate_product_id s url sku =
          s ++ "_" ++ String.mk ((md5HexChars (utf8Bytes url)).take 8)) ∧
        (∀ sku₂ : String, sku ≠ "" → sku₂ ≠ "" → sku ≠ sku₂ →
          generate_product_id s url sku ≠ generate_product_id s url sku₂) := by
  intro s url sku
  refine ⟨?_, ?_, ?_⟩
  · intro h
    rw [generate_product_id, if_pos h]
  · intro h
    rw [generate_product_id, if_neg (by simp [h])]
  · intro sku₂ h1 h2 hne heq
    rw [generate_product_id, if_pos h1, generate_product_id, if_pos h2] at heq
    apply hne
    have hd := congrArg String.data heq
    simp [String.data_append] at hd
    exact String.ext hd

/-- C9 witness: the amended statement at supplier `"sup"`, URL `"u"` and the
distinct non-empty SKUs `"a"`, `"b"`. -/
theorem C9_id_format_and_nonempty_sku_injective_witness :
    generate_product_id "sup" "u" "a" = "sup" ++ "_" ++ "a" ∧
      generate_product_id "sup" "u" "a" ≠ generate_product_id "sup" "u" "b" :=
  ⟨(C9_id_format_and_nonempty_sku_injective "sup" "u" "a").1 (by decide),
   (C9_id_format_and_nonempty_sku_injective "sup" "u" "a").2.2 "b"
     (by decide) (by decide) (by decide)⟩

/-! ## Claim C10 -/

/-- C10: any record whose case-folded availability text (name, a space, then
description) contains `"indisponible"` is classified `"in_stock"`, never
`"out_of_stock"`: the in-stock indicators are checked first, and
`"disponible"` is a substring of `"indisponible"`. -/
theorem C10_indisponible_yields_in_stock :
    ∀ r : RawProduct,
      "indisponible".toList <:+:
          pyLower ((r.product_name ++ " " ++ r.description).toList) →
        determine_availability r = "in_stock" ∧
          determine_availability r ≠ "out_of_stock" := by
  intro r h
  have hdisp : "disponible".toList <:+:
      pyLower ((r.product_name ++ " " ++ r.description).toList) :=
    (show "disponible".toList <:+: "indisponible".toList by decide).trans h
  have hcs : containsSub
      (pyLower ((r.product_name ++ " " ++ r.description).toList))
      "disponible".toList = true := by
    unfold containsSub
    exact decide_eq_true hdisp
  have hmain : determine_availability r = "in_stock" := by
    unfold determine_availability availabilityIndicators
    dsimp only
    rw [firstMatchingStatus]
    rw [if_pos ?_]
    simp only [List.any_cons, hcs, Bool.or_true, Bool.true_or,
      List.any_nil, Bool.or_false]
  exact ⟨hmain, by rw [hmain]; decide⟩

/-- C10 witness: a record named `"Produit indisponible"` is classified
`"in_stock"`. -/
theorem C10_indisponible_yields_in_stock_witness :
    "indisponible".toList <:+:
        pyLower ((({ product_name := "Produit indisponible" } :
          RawProduct).product_name ++ " " ++
            ({ product_name := "Produit indisponible" } :
              RawProduct).description).toList) ∧
      determine_availability { product_name := "Produit indisponible" } =
        "in_stock" :=
  ⟨by decide,
   (C10_indisponible_yields_in_stock { product_name := "Produit indisponible" }
     (by decide)).1⟩

end Donizo
